import Mathlib

/-!
Verification of the core logic of `src/learn_textual/__main__.py`:
the `KeyMap` chord remapper, the `TreeControl`/`DirectoryTree` node store,
the `ControlPanel._run_server` process-supervisor generator, and the
`App.press` synthetic-key redispatch.  Each Python construct is embedded
shallowly as an executable Lean definition; theorems below settle the
specification claims against these definitions.
-/

set_option autoImplicit false

universe u

/-! ## ChordRemapper (`KeyMap`, source lines 170-208) -/

/-- Keys are strings, as in the source (`Key = str`). -/
abbrev Key := String

/-- State of `KeyMap`: the pending buffer `_current_sequence` and the
dictionary `_mapping`, embedded as an association list from source key
sequences to target key sequences (Python dict lookup is exact-equality
lookup of the first matching entry). -/
structure KeyMap where
  current_sequence : List Key
  mapping : List (List Key × List Key)
deriving DecidableEq

/-- Exact-equality association-list lookup, embedding Python
dictionary subscript `self._mapping[current_sequence]`. -/
def lookupSeq : List (List Key × List Key) → List Key → Option (List Key)
  | [], _ => none
  | (src, tgt) :: rest, cs => if src = cs then some tgt else lookupSeq rest cs

/-- Embedding of `KeyMap.press` (source lines 193-208): append the key to
the pending buffer, reset the buffer, try an exact dictionary lookup first;
on `KeyError`, keep the extended buffer exactly when it is a length-bounded
take-prefix of some bound source (`source[:current_length] == current_sequence`). -/
def kmPress (m : KeyMap) (key : Key) : (Bool ⊕ List Key) × KeyMap :=
  match lookupSeq m.mapping (m.current_sequence ++ [key]) with
  | some target => (Sum.inr target, { m with current_sequence := [] })
  | none =>
    if m.mapping.any
        (fun p => p.1.take (m.current_sequence ++ [key]).length == m.current_sequence ++ [key]) then
      (Sum.inl true, { m with current_sequence := m.current_sequence ++ [key] })
    else
      (Sum.inl false, { m with current_sequence := [] })

/-- Feeding a list of keys to the key map in order, keeping only the state. -/
def kmRun (m : KeyMap) (ks : List Key) : KeyMap :=
  ks.foldl (fun acc k => (kmPress acc k).2) m

/-- Invariant of reachable pending buffers: every nonempty buffered
sequence, and each of its nonempty initial segments, fails exact lookup. -/
def PendingOk (M : List (List Key × List Key)) (p : List Key) : Prop :=
  ∀ q : List Key, q ≠ [] → q <+: p → lookupSeq M q = none

/-! ## Controller (`App.press`, source lines 219-229) -/

/-- Embedding of the redispatch loop of `App.press`: each target key is
dispatched through `on_event` (abstracted as the `consume` stage, returning
whether the event had `stop_propagation` set); the loop breaks after the
first event that was not consumed.  The returned list is the sequence of
dispatched keys, in order. -/
def dispatchTargets (consume : Key → Bool) : List Key → List Key
  | [] => []
  | k :: rest => k :: (if consume k then dispatchTargets consume rest else [])

/-- Follows the wording of the redispatch sentence of the spec, for
comparison with the code: feed target keys in order, stopping early as
soon as a dispatched event is marked consumed. -/
def dispatchTargetsSpec (consume : Key → Bool) : List Key → List Key
  | [] => []
  | k :: rest => k :: (if consume k then [] else dispatchTargetsSpec consume rest)

/-- Embedding of `App.press`: resolve the key through the key map; on a
matched tuple, redispatch target keys; on `continuing = true` report
handled; otherwise fall through to the base class press (abstracted as
`superPress`).  Returns the new key-map state, the dispatched synthetic
keys, and the boolean result. -/
def appPress (km : KeyMap) (consume : Key → Bool) (superPress : Key → Bool) (key : Key) :
    KeyMap × List Key × Bool :=
  match kmPress km key with
  | (Sum.inr target, km') => (km', dispatchTargets consume target, true)
  | (Sum.inl true, km') => (km', [], true)
  | (Sum.inl false, km') => (km', [], superPress key)

/-! ## NodeStore (`TreeControl`, source lines 52-103)

The store mirrors textual's `TreeControl`: a dictionary `nodes` from
`NodeID` to nodes, a root id, and the monotonically assigned id counter
`self.id`.  Parent/child links are kept as ids; each node carries the
ordered list of its children's ids and its `expanded` flag. -/

/-- A tree node: id, single-line label, payload, optional parent id,
ordered children ids, and the expanded flag. -/
structure TreeNode (α : Type u) where
  id : Nat
  label : String
  data : α
  parentId : Option Nat
  childIds : List Nat
  expanded : Bool
deriving DecidableEq

/-- The node store of a `TreeControl`: root id, the `nodes` dictionary as
an association list in insertion order, and the id counter. -/
structure TreeControlStore (α : Type u) where
  rootId : Nat
  nodes : List (Nat × TreeNode α)
  nextId : Nat
deriving DecidableEq

/-- Failure taxonomy of the store operations: `invalidArgument` for the
root-removal assertion, `notFound` for a missing id (Python `KeyError`),
`assertFailed` for the parent assertions, `valueError` for
`list.remove` on a missing element. -/
inductive TreeErr where
  | invalidArgument
  | notFound
  | assertFailed
  | valueError
deriving DecidableEq

variable {α : Type u}

/-- Dictionary lookup on the node map (first entry with the given key). -/
def lookupNode : List (Nat × TreeNode α) → Nat → Option (TreeNode α)
  | [], _ => none
  | (k, v) :: rest, nid => if k = nid then some v else lookupNode rest nid

/-- Replace the value of the first entry with the given key (dictionary
assignment to an existing key); no change when the key is absent. -/
def setNode : List (Nat × TreeNode α) → Nat → TreeNode α → List (Nat × TreeNode α)
  | [], _, _ => []
  | (k, v) :: rest, nid, n => if k = nid then (k, n) :: rest else (k, v) :: setNode rest nid n

/-- Remove the first entry with the given key (Python `dict.pop`). -/
def eraseNode : List (Nat × TreeNode α) → Nat → List (Nat × TreeNode α)
  | [], _ => []
  | (k, v) :: rest, nid => if k = nid then rest else (k, v) :: eraseNode rest nid

/-- Modelled from the spec: textual's `TreeControl.add` / `TreeNode.add`
(the external library, not under `src/`).  Per the spec, `add` fails
`NotFound` when the parent id is absent and otherwise assigns a fresh
monotonic id (textual increments `self.id` and uses it), appends the new
id to the parent's ordered children, and registers the node in the store. -/
def add (s : TreeControlStore α) (parentId : Nat) (label : String) (dat : α) :
    Except TreeErr Nat × TreeControlStore α :=
  match lookupNode s.nodes parentId with
  | none => (Except.error TreeErr.notFound, s)
  | some parent =>
    let nid := s.nextId + 1
    (Except.ok nid,
      { s with
        nextId := nid,
        nodes := setNode s.nodes parentId { parent with childIds := parent.childIds ++ [nid] }
                   ++ [(nid, { id := nid, label := label, data := dat,
                               parentId := some parentId, childIds := [], expanded := false })] })

/-- Embedding of `TreeControl.remove` (source lines 72-81): assert the id
is not the root, pop the node from the `nodes` dictionary (raising
`KeyError`, i.e. `notFound`, when absent, without mutating), assert it has
a parent, and remove it from the parent's ordered children
(`list.remove` drops the first occurrence, raising `ValueError` when
absent).  The store returned alongside an error is the store at the point
the exception was raised. -/
def remove (s : TreeControlStore α) (nid : Nat) : Except TreeErr Unit × TreeControlStore α :=
  if nid = s.rootId then (Except.error TreeErr.invalidArgument, s)
  else
    match lookupNode s.nodes nid with
    | none => (Except.error TreeErr.notFound, s)
    | some node =>
      let s1 : TreeControlStore α := { s with nodes := eraseNode s.nodes nid }
      match node.parentId with
      | none => (Except.error TreeErr.assertFailed, s1)
      | some pid =>
        match lookupNode s1.nodes pid with
        | none => (Except.error TreeErr.assertFailed, s1)
        | some parent =>
          if nid ∈ parent.childIds then
            (Except.ok (),
              { s1 with
                nodes := setNode s1.nodes pid
                           { parent with childIds := parent.childIds.erase nid } })
          else (Except.error TreeErr.valueError, s1)

/-- Modelled from the spec: textual's `TreeNode.toggle` (external library,
not under `src/`); the spec says toggle flips the node's `expanded` flag. -/
def toggle (s : TreeControlStore α) (nid : Nat) : TreeControlStore α :=
  match lookupNode s.nodes nid with
  | none => s
  | some node => { s with nodes := setNode s.nodes nid { node with expanded := !node.expanded } }

/-- Embedding of `TreeControl.handle_tree_click` (source lines 67-70):
toggle the clicked node only when its children list is nonempty. -/
def tcHandleClick (s : TreeControlStore α) (nid : Nat) : TreeControlStore α :=
  match lookupNode s.nodes nid with
  | none => s
  | some node => if node.childIds = [] then s else toggle s nid

/-- The filesystem, as `DirectoryTree` observes it: a directory test and
the `iterdir` listing, returned as (name, path) pairs (the code adds each
entry with `label=path.name, data=path`). -/
structure Fsys where
  isDir : String → Bool
  listing : String → List (String × String)

/-- Add one child per directory entry under the given node, in listing
order (the `for path in hovered_path.iterdir(): await node.add(...)` loop). -/
def populateChildren (s : TreeControlStore String) (nid : Nat) :
    List (String × String) → TreeControlStore String
  | [] => s
  | (name, p) :: rest => populateChildren (add s nid name p).2 nid rest

/-- Embedding of `DirectoryTree.handle_tree_click` (source lines 94-103):
when the clicked node has no children, attempt lazy population (listing
the directory when the payload path is a directory, a no-op otherwise),
then delegate to `TreeControl.handle_tree_click`.  The second component
counts how many times the populate block ran (0 or 1 for one click). -/
def dtHandleClick (fs : Fsys) (s : TreeControlStore String) (nid : Nat) :
    TreeControlStore String × Nat :=
  match lookupNode s.nodes nid with
  | none => (s, 0)
  | some node =>
    if node.childIds = [] then
      (tcHandleClick
        (if fs.isDir node.data then populateChildren s nid (fs.listing node.data) else s) nid, 1)
    else (tcHandleClick s nid, 0)

/-- Boolean bound on the keys of the node map. -/
def keysLe (l : List (Nat × TreeNode α)) (n : Nat) : Bool :=
  l.all (fun p => Nat.ble p.1 n)

/-- Boolean bound on every id stored in any children list. -/
def childrenLe (l : List (Nat × TreeNode α)) (n : Nat) : Bool :=
  l.all (fun p => p.2.childIds.all (fun c => Nat.ble c n))

/-- Boolean uniqueness of the keys of the node map. -/
def nodupKeys : List (Nat × TreeNode α) → Bool
  | [] => true
  | (k, _) :: rest => rest.all (fun p => p.1 != k) && nodupKeys rest

/-- Store well-formedness maintained by the textual control: the root id
and every id mentioned anywhere are bounded by the id counter, and the
node map has no duplicate keys. -/
def wfStore (s : TreeControlStore α) : Bool :=
  Nat.ble s.rootId s.nextId && keysLe s.nodes s.nextId &&
    childrenLe s.nodes s.nextId && nodupKeys s.nodes

/-! ## ProcessSupervisor (`ControlPanel._run_server`, source lines 131-167)

The async generator is embedded as an explicit state machine.  Its three
suspension points behave in exactly two ways on resumption: the initial
suspension, the yield after a failed binary discovery (line 141), and the
yield after "Server: Stopped." (line 167) all continue from the top of the
`while True` loop (`atLoop`); the yield inside the `try` block (line 160)
is the running span (`running`).  A generator whose frame has exited —
normally impossible here, but reached when an exception propagates out —
is `finished`: a further `asend` raises `StopAsyncIteration` without
running any code.  An exception thrown into, or a close of, the generator
while it is suspended inside the `try` runs the `finally` block (label
"Server: Stopping.", then `kill`) before propagating. -/

/-- Generic boolean take-prefix test on lists. -/
def isPrefixSeq {β : Type u} [BEq β] : List β → List β → Bool
  | [], _ => true
  | _ :: _, [] => false
  | a :: as, b :: bs => a == b && isPrefixSeq as bs

/-- Generic boolean contiguous-substring test (Python `in` on bytes). -/
def containsSub {β : Type u} [BEq β] (pat : List β) : List β → Bool
  | [] => isPrefixSeq pat ([] : List β)
  | b :: rest => isPrefixSeq pat (b :: rest) || containsSub pat rest

/-- Where the generator is suspended. -/
inductive SupPhase where
  | atLoop
  | running
  | finished
deriving DecidableEq

/-- Supervisor state: the data and label of the rclone-path node (the data
is the cached binary path, empty string until a discovery succeeds), the
server node's label, and the suspension phase. -/
structure SupState where
  pathData : String
  pathLabel : String
  serverLabel : String
  phase : SupPhase
deriving DecidableEq

/-- The environment one activation observes: the result of
`shutil.which("rclone")`, whether `create_subprocess_exec` succeeds, and
the first line read from the child's stderr (`none` when the stream closed
before any line; `readline` then returns the empty bytestring). -/
structure SupEnv where
  whichResult : Option String
  spawnOk : Bool
  firstLine : Option String
deriving DecidableEq

/-- How the generator is driven: `asend(None)` on a click, or an exception
thrown in / a close during host teardown. -/
inductive SupEvent where
  | resume
  | throwEv
  | closeEv
deriving DecidableEq

/-- How the step ends: suspended at a yield, exception propagated to the
caller, `StopAsyncIteration` from an exhausted generator, or a completed
close. -/
inductive SupOutcome where
  | yielded
  | raised
  | stopIteration
  | closed
deriving DecidableEq

/-- Result of driving the generator one step: the new state, how the step
ended, how many times `kill` ran, and the server-label writes in order. -/
structure SupResult where
  state : SupState
  outcome : SupOutcome
  kills : Nat
  labels : List String
deriving DecidableEq

/-- The readiness marker (source line 154). -/
def marker : String := " NOTICE: Serving remote control on "

/-- The label chosen after the first stderr line is read (source lines
153-158): "Server: Started." exactly when the line contains the marker. -/
def startedLabel (firstLine : Option String) : String :=
  if containsSub marker.data (firstLine.getD "").data then "Server: Started."
  else "Server: Started but may be incompatible."

/-- The binary-resolution step at the top of the loop (source lines
135-144): use the cached path when the node data is nonempty, otherwise
consult `shutil.which`; on success cache the path in the node data and
update the path label; on failure report `none`. -/
def resolvePath (env : SupEnv) (s : SupState) : Option SupState :=
  if s.pathData ≠ "" then some s
  else
    match env.whichResult with
    | none => none
    | some p => some { s with pathData := p, pathLabel := "rclone path: " ++ p }

/-- One step of the `_run_server` generator, driven by one event under one
environment. -/
def supStep (env : SupEnv) (s : SupState) (ev : SupEvent) : SupResult :=
  match s.phase, ev with
  | SupPhase.finished, SupEvent.resume => ⟨s, SupOutcome.stopIteration, 0, []⟩
  | SupPhase.finished, SupEvent.throwEv => ⟨s, SupOutcome.raised, 0, []⟩
  | SupPhase.finished, SupEvent.closeEv => ⟨s, SupOutcome.closed, 0, []⟩
  | SupPhase.running, SupEvent.resume =>
      ⟨{ s with serverLabel := "Server: Stopped.", phase := SupPhase.atLoop },
        SupOutcome.yielded, 1, ["Server: Stopping.", "Server: Stopped."]⟩
  | SupPhase.running, SupEvent.throwEv =>
      ⟨{ s with serverLabel := "Server: Stopping.", phase := SupPhase.finished },
        SupOutcome.raised, 1, ["Server: Stopping."]⟩
  | SupPhase.running, SupEvent.closeEv =>
      ⟨{ s with serverLabel := "Server: Stopping.", phase := SupPhase.finished },
        SupOutcome.closed, 1, ["Server: Stopping."]⟩
  | SupPhase.atLoop, SupEvent.throwEv =>
      ⟨{ s with phase := SupPhase.finished }, SupOutcome.raised, 0, []⟩
  | SupPhase.atLoop, SupEvent.closeEv =>
      ⟨{ s with phase := SupPhase.finished }, SupOutcome.closed, 0, []⟩
  | SupPhase.atLoop, SupEvent.resume =>
      match resolvePath env s with
      | none =>
          ⟨{ s with serverLabel := "Server: Cannot find rclone binary." },
            SupOutcome.yielded, 0, ["Server: Cannot find rclone binary."]⟩
      | some s1 =>
          if env.spawnOk then
            ⟨{ s1 with serverLabel := startedLabel env.firstLine, phase := SupPhase.running },
              SupOutcome.yielded, 0, ["Server: Starting.", startedLabel env.firstLine]⟩
          else
            ⟨{ s1 with serverLabel := "Server: Starting.", phase := SupPhase.finished },
              SupOutcome.raised, 0, ["Server: Starting."]⟩

/-! ## Concrete instances used by witnesses and counterexamples -/

/-- The supervisor state right after `on_mount`: node data empty, the
placeholder labels, suspended before the first activation. -/
def supInit : SupState :=
  ⟨"", "rclone path: ...", "Server: ...", SupPhase.atLoop⟩

/-- An activation environment in which binary discovery fails. -/
def envNoBinary : SupEnv := ⟨none, true, none⟩

/-- An activation environment in which discovery succeeds but the spawn
call itself fails. -/
def envSpawnFail : SupEnv := ⟨some "/usr/bin/rclone", false, none⟩

/-- An activation environment in which the helper starts and emits the
readiness marker on its first stderr line. -/
def envGood : SupEnv :=
  ⟨some "/usr/bin/rclone", true,
    some "2024/01/01 00:00:00 NOTICE: Serving remote control on http://localhost:5572/"⟩

/-- A supervisor state suspended in the running span. -/
def supRunning : SupState :=
  ⟨"/usr/bin/rclone", "rclone path: /usr/bin/rclone", "Server: Started.", SupPhase.running⟩

/-- An environment that agrees with `envNoBinary` on everything except the
result of binary discovery. -/
def envWhichOnly : SupEnv := ⟨some "/usr/bin/rclone", true, none⟩

/-- A supervisor state back at the top of the loop with a cached path. -/
def supCached : SupState :=
  ⟨"/usr/bin/rclone", "rclone path: /usr/bin/rclone", "Server: Stopped.", SupPhase.atLoop⟩

/-- A filesystem with one empty directory at "/root/empty". -/
def fsEmptyDir : Fsys :=
  ⟨fun p => p == "/root" || p == "/root/empty", fun _ => []⟩

/-- A two-node directory store: root "/root" with one childless child
node for "/root/empty". -/
def dirStoreEx : TreeControlStore String :=
  ⟨0,
   [(0, ⟨0, "root", "/root", none, [1], true⟩),
    (1, ⟨1, "empty", "/root/empty", some 0, [], false⟩)],
   1⟩

/-! ## Helper lemmas on the association-list node map -/

theorem lookupNode_eq_none_of_keysLe {l : List (Nat × TreeNode α)} {n : Nat}
    (h : keysLe l n = true) : lookupNode l (n + 1) = none := by
  induction l with
  | nil => rfl
  | cons p rest ih =>
      obtain ⟨k, v⟩ := p
      simp only [keysLe, List.all_cons, Bool.and_eq_true] at h
      have hk : k ≤ n := Nat.le_of_ble_eq_true h.1
      have hne : k ≠ n + 1 := by omega
      simpa [lookupNode, hne] using ih h.2

theorem lookupNode_append_of_none {l l2 : List (Nat × TreeNode α)} {k : Nat}
    (h : lookupNode l k = none) : lookupNode (l ++ l2) k = lookupNode l2 k := by
  induction l with
  | nil => rfl
  | cons p rest ih =>
      obtain ⟨k', v⟩ := p
      by_cases hk : k' = k
      · simp [lookupNode, hk] at h
      · simp only [lookupNode, hk, if_false] at h
        simpa only [List.cons_append, lookupNode, hk, if_false] using ih h

theorem keysLe_setNode {l : List (Nat × TreeNode α)} {n k : Nat} {v : TreeNode α}
    (h : keysLe l n = true) : keysLe (setNode l k v) n = true := by
  induction l with
  | nil => rfl
  | cons p rest ih =>
      obtain ⟨k', v'⟩ := p
      simp only [keysLe, List.all_cons, Bool.and_eq_true] at h
      by_cases hk : k' = k
      · simp only [setNode]
        rw [if_pos hk]
        simp only [keysLe, List.all_cons, Bool.and_eq_true]
        exact ⟨h.1, h.2⟩
      · simp only [setNode]
        rw [if_neg hk]
        simp only [keysLe, List.all_cons, Bool.and_eq_true]
        exact ⟨h.1, ih h.2⟩

theorem eraseNode_append_of_none {l : List (Nat × TreeNode α)} {k : Nat} {v : TreeNode α}
    (h : lookupNode l k = none) : eraseNode (l ++ [(k, v)]) k = l := by
  induction l with
  | nil => simp [eraseNode]
  | cons p rest ih =>
      obtain ⟨k', v'⟩ := p
      by_cases hk : k' = k
      · simp [lookupNode, hk] at h
      · simp only [lookupNode, hk, if_false] at h
        simp [eraseNode, hk, ih h]

theorem setNode_eq_self {l : List (Nat × TreeNode α)} {k : Nat} {v : TreeNode α}
    (h : lookupNode l k = some v) : setNode l k v = l := by
  induction l with
  | nil => rfl
  | cons p rest ih =>
      obtain ⟨k', v'⟩ := p
      by_cases hk : k' = k
      · simp only [lookupNode, hk, if_true, Option.some.injEq] at h
        simp [setNode, hk, h]
      · simp only [lookupNode, hk, if_false] at h
        simp [setNode, hk, ih h]

theorem setNode_setNode {l : List (Nat × TreeNode α)} {k : Nat} {v w : TreeNode α} :
    setNode (setNode l k v) k w = setNode l k w := by
  induction l with
  | nil => rfl
  | cons p rest ih =>
      obtain ⟨k', v'⟩ := p
      by_cases hk : k' = k <;> simp [setNode, hk, ih]

theorem lookupNode_setNode_self {l : List (Nat × TreeNode α)} {k : Nat} {v w : TreeNode α}
    (h : lookupNode l k = some v) : lookupNode (setNode l k w) k = some w := by
  induction l with
  | nil => simp [lookupNode] at h
  | cons p rest ih =>
      obtain ⟨k', v'⟩ := p
      by_cases hk : k' = k
      · simp [setNode, lookupNode, hk]
      · simp only [lookupNode, hk, if_false] at h
        simp [setNode, lookupNode, hk, ih h]

theorem lookupNode_setNode_ne {l : List (Nat × TreeNode α)} {k k2 : Nat} {v : TreeNode α}
    (h : k2 ≠ k) : lookupNode (setNode l k v) k2 = lookupNode l k2 := by
  induction l with
  | nil => rfl
  | cons p rest ih =>
      obtain ⟨k', v'⟩ := p
      by_cases hk : k' = k
      · subst hk
        simp [setNode, lookupNode, Ne.symm h]
      · by_cases hk2 : k' = k2 <;> simp [setNode, lookupNode, hk, hk2, ih, h]

theorem lookupNode_eraseNode_ne {l : List (Nat × TreeNode α)} {k k2 : Nat}
    (h : k2 ≠ k) : lookupNode (eraseNode l k) k2 = lookupNode l k2 := by
  induction l with
  | nil => rfl
  | cons p rest ih =>
      obtain ⟨k', v'⟩ := p
      by_cases hk : k' = k
      · subst hk
        simp [eraseNode, lookupNode, Ne.symm h]
      · by_cases hk2 : k' = k2 <;> simp [eraseNode, lookupNode, hk, hk2, ih, h]

theorem lookupNode_eq_none_of_all_ne {l : List (Nat × TreeNode α)} {k : Nat}
    (h : l.all (fun p => p.1 != k) = true) : lookupNode l k = none := by
  induction l with
  | nil => rfl
  | cons p rest ih =>
      obtain ⟨k', v'⟩ := p
      simp only [List.all_cons, Bool.and_eq_true, bne_iff_ne, ne_eq] at h
      simpa [lookupNode, h.1] using ih h.2

theorem lookupNode_eraseNode_self {l : List (Nat × TreeNode α)} {k : Nat}
    (h : nodupKeys l = true) : lookupNode (eraseNode l k) k = none := by
  induction l with
  | nil => rfl
  | cons p rest ih =>
      obtain ⟨k', v'⟩ := p
      simp only [nodupKeys, Bool.and_eq_true] at h
      by_cases hk : k' = k
      · subst hk
        simpa [eraseNode] using lookupNode_eq_none_of_all_ne h.1
      · simpa [eraseNode, lookupNode, hk] using ih h.2

theorem erase_append_single {l : List Nat} {x : Nat} (h : x ∉ l) :
    (l ++ [x]).erase x = l := by
  induction l with
  | nil => simp
  | cons a l ih =>
      have hax : a ≠ x := by
        intro he
        exact h (he ▸ List.mem_cons_self a l)
      have hxl : x ∉ l := fun hm => h (List.mem_cons_of_mem a hm)
      simp [List.erase_cons, hax, ih hxl]

/-! ## Claims about the process supervisor (C2, C3, C4, C5) -/

/-- Claim C2: once the supervisor is suspended in the running span (a live
process handle exists), driving the generator by any event — normal next
activation, a thrown-in error, or teardown close — invokes kill exactly
once; on the normal next activation the server label is set to
"Server: Stopping." and then "Server: Stopped.". -/
theorem c2_kill_exactly_once (env : SupEnv) (s : SupState) (ev : SupEvent)
    (h : s.phase = SupPhase.running) :
    (supStep env s ev).kills = 1 ∧
    (ev = SupEvent.resume →
      (supStep env s ev).labels = ["Server: Stopping.", "Server: Stopped."] ∧
      (supStep env s ev).state.serverLabel = "Server: Stopped." ∧
      (supStep env s ev).state.phase = SupPhase.atLoop) := by
  obtain ⟨pd, pl, sl, ph⟩ := s
  cases ph <;> cases ev <;> simp_all [supStep]

theorem c2_kill_exactly_once_witness :
    (supStep envGood supRunning SupEvent.resume).kills = 1 ∧
    (supStep envGood supRunning SupEvent.resume).labels =
      ["Server: Stopping.", "Server: Stopped."] := by
  obtain ⟨a, b⟩ := c2_kill_exactly_once envGood supRunning SupEvent.resume rfl
  exact ⟨a, (b rfl).1⟩

/-- Claim C3, amended: if the spawn call fails during the Starting step the
failure is reported to the caller (the exception propagates out of the
activation) with no kill, but the generator thereby terminates: it does not
return to the idle top-of-loop state, and every later activation raises
StopAsyncIteration without running the machine at all. -/
theorem c3_spawn_failure_terminates (env : SupEnv) (s : SupState)
    (h1 : s.phase = SupPhase.atLoop) (h2 : resolvePath env s ≠ none)
    (h3 : env.spawnOk = false) :
    (supStep env s SupEvent.resume).outcome = SupOutcome.raised ∧
    (supStep env s SupEvent.resume).kills = 0 ∧
    (supStep env s SupEvent.resume).state.phase = SupPhase.finished ∧
    (∀ (env2 : SupEnv) (s2 : SupState), s2.phase = SupPhase.finished →
      supStep env2 s2 SupEvent.resume = ⟨s2, SupOutcome.stopIteration, 0, []⟩) := by
  obtain ⟨pd, pl, sl, ph⟩ := s
  cases ph with
  | running => simp at h1
  | finished => simp at h1
  | atLoop =>
      cases hr : resolvePath env ⟨pd, pl, sl, SupPhase.atLoop⟩ with
      | none => exact absurd hr h2
      | some s1 =>
          refine ⟨?_, ?_, ?_, ?_⟩
          · simp [supStep, hr, h3]
          · simp [supStep, hr, h3]
          · simp [supStep, hr, h3]
          · intro env2 s2 hs2
            obtain ⟨pd2, pl2, sl2, ph2⟩ := s2
            cases ph2 <;> simp_all [supStep]

/-- Counterexample to claim C3 as stated: after a spawn failure the
supervisor is not back at the idle top-of-loop state, and the next
activation is a StopAsyncIteration no-op instead of running the state
machine again. -/
theorem c3_counterexample :
    (supStep envSpawnFail supInit SupEvent.resume).outcome = SupOutcome.raised ∧
    (supStep envSpawnFail supInit SupEvent.resume).state.phase ≠ SupPhase.atLoop ∧
    supStep envGood (supStep envSpawnFail supInit SupEvent.resume).state SupEvent.resume =
      ⟨(supStep envSpawnFail supInit SupEvent.resume).state,
        SupOutcome.stopIteration, 0, []⟩ := by
  exact ⟨rfl, by decide, rfl⟩

theorem c3_spawn_failure_terminates_witness :
    (supStep envSpawnFail supInit SupEvent.resume).outcome = SupOutcome.raised ∧
    (supStep envSpawnFail supInit SupEvent.resume).kills = 0 ∧
    (supStep envSpawnFail supInit SupEvent.resume).state.phase = SupPhase.finished ∧
    supStep envGood ⟨"", "", "", SupPhase.finished⟩ SupEvent.resume =
      ⟨⟨"", "", "", SupPhase.finished⟩, SupOutcome.stopIteration, 0, []⟩ := by
  obtain ⟨a, b, c, d⟩ := c3_spawn_failure_terminates envSpawnFail supInit rfl (by decide) rfl
  exact ⟨a, b, c, d envGood _ rfl⟩

/-- Claim C4: after a successful spawn the supervisor always enters the
running span; the label is "Server: Started." exactly when the first
stderr line contains the readiness marker, and it is
"Server: Started but may be incompatible." both when a line was read
without the marker and when the stream closed before any line — the two
degraded cases get the identical label. -/
theorem c4_readiness_line (env : SupEnv) (s : SupState)
    (h1 : s.phase = SupPhase.atLoop) (h2 : resolvePath env s ≠ none)
    (h3 : env.spawnOk = true) :
    (supStep env s SupEvent.resume).state.phase = SupPhase.running ∧
    ((supStep env s SupEvent.resume).state.serverLabel = "Server: Started." ↔
      containsSub marker.data ((env.firstLine.getD "").data) = true) ∧
    (env.firstLine = none →
      (supStep env s SupEvent.resume).state.serverLabel =
        "Server: Started but may be incompatible.") ∧
    (∀ line : String, env.firstLine = some line →
      containsSub marker.data line.data = false →
      (supStep env s SupEvent.resume).state.serverLabel =
        "Server: Started but may be incompatible.") ∧
    (supStep env s SupEvent.resume).labels =
      ["Server: Starting.", startedLabel env.firstLine] := by
  obtain ⟨pd, pl, sl, ph⟩ := s
  cases ph with
  | running => simp at h1
  | finished => simp at h1
  | atLoop =>
      cases hr : resolvePath env ⟨pd, pl, sl, SupPhase.atLoop⟩ with
      | none => exact absurd hr h2
      | some s1 =>
          refine ⟨?_, ?_, ?_, ?_, ?_⟩
          · simp [supStep, hr, h3]
          · simp only [supStep, hr, h3, if_true]
            unfold startedLabel
            cases hc : containsSub marker.data ((env.firstLine.getD "").data) with
            | true => simp
            | false => simp [hc]
          · intro hn
            simp [supStep, hr, h3, startedLabel, hn]
            decide
          · intro line hl hc
            simp [supStep, hr, h3, startedLabel, hl, hc]
          · simp [supStep, hr, h3]

theorem c4_readiness_line_witness :
    (supStep envGood supCached SupEvent.resume).state.phase = SupPhase.running ∧
    (supStep envGood supCached SupEvent.resume).state.serverLabel = "Server: Started." ∧
    (supStep envWhichOnly supInit SupEvent.resume).state.serverLabel =
      "Server: Started but may be incompatible." := by
  refine ⟨(c4_readiness_line envGood supCached rfl (by decide) rfl).1, ?_, ?_⟩
  · exact (c4_readiness_line envGood supCached rfl (by decide) rfl).2.1.mpr (by decide)
  · exact (c4_readiness_line envWhichOnly supInit rfl (by decide) rfl).2.2.1 rfl

/-- Claim C5: when no path is cached and discovery fails, the activation
sets the fixed "cannot find" label and yields without crashing, leaving
the cache empty so discovery runs again on the next activation; a
successful discovery caches the path, and once the cache is nonempty the
step never changes it and never consults discovery again (the step is
independent of the discovery result). -/
theorem c5_discovery_caching (env env2 : SupEnv) (s : SupState) (p : String) (ev : SupEvent) :
    (s.phase = SupPhase.atLoop → s.pathData = "" → env.whichResult = none →
      supStep env s SupEvent.resume =
        ⟨{ s with serverLabel := "Server: Cannot find rclone binary." },
          SupOutcome.yielded, 0, ["Server: Cannot find rclone binary."]⟩) ∧
    (s.phase = SupPhase.atLoop → s.pathData = "" → env.whichResult = some p →
      (supStep env s SupEvent.resume).state.pathData = p) ∧
    (s.pathData ≠ "" → (supStep env s ev).state.pathData = s.pathData) ∧
    (s.pathData ≠ "" → env.spawnOk = env2.spawnOk → env.firstLine = env2.firstLine →
      supStep env s ev = supStep env2 s ev) := by
  obtain ⟨pd, pl, sl, ph⟩ := s
  obtain ⟨w, sp, fl⟩ := env
  obtain ⟨w2, sp2, fl2⟩ := env2
  refine ⟨?_, ?_, ?_, ?_⟩
  · rintro h1 h2 h3
    cases ph <;> simp_all [supStep, resolvePath]
  · rintro h1 h2 h3
    cases ph <;> cases sp <;> simp_all [supStep, resolvePath]
  · intro h1
    cases ph <;> cases ev <;> cases sp <;> simp_all [supStep, resolvePath]
  · rintro h1 h2 h3
    simp only at h2 h3
    subst h2
    subst h3
    cases ph <;> cases ev <;> cases sp <;> simp_all [supStep, resolvePath]

theorem c5_discovery_caching_witness :
    supStep envNoBinary supInit SupEvent.resume =
      ⟨{ supInit with serverLabel := "Server: Cannot find rclone binary." },
        SupOutcome.yielded, 0, ["Server: Cannot find rclone binary."]⟩ ∧
    (supStep envGood supInit SupEvent.resume).state.pathData = "/usr/bin/rclone" ∧
    (supStep envNoBinary supCached SupEvent.resume).state.pathData = supCached.pathData ∧
    supStep envNoBinary supCached SupEvent.resume =
      supStep envWhichOnly supCached SupEvent.resume := by
  refine ⟨?_, ?_, ?_, ?_⟩
  · exact (c5_discovery_caching envNoBinary envGood supInit "x" SupEvent.resume).1 rfl rfl rfl
  · exact (c5_discovery_caching envGood envGood supInit "/usr/bin/rclone"
      SupEvent.resume).2.1 rfl rfl rfl
  · exact (c5_discovery_caching envNoBinary envGood supCached "x"
      SupEvent.resume).2.2.1 (by decide)
  · exact (c5_discovery_caching envNoBinary envWhichOnly supCached "x"
      SupEvent.resume).2.2.2 (by decide) rfl rfl

/-! ## Claims about the node store and clicks (C6, C8, C10) -/

/-- Claim C6: for every store state, remove fails with invalidArgument when
the id is the root's id, and fails with notFound when no node with that id
exists; in both failure cases the returned store — its node map and with it
every node's children list — is exactly the input store. -/
theorem c6_remove_failures {α : Type u} (s : TreeControlStore α) (nid : Nat) :
    (nid = s.rootId → remove s nid = (Except.error TreeErr.invalidArgument, s)) ∧
    (nid ≠ s.rootId → lookupNode s.nodes nid = none →
      remove s nid = (Except.error TreeErr.notFound, s)) := by
  constructor
  · intro h
    simp [remove, h]
  · intro h h2
    simp [remove, h, h2]

theorem c6_remove_failures_witness :
    remove dirStoreEx 0 = (Except.error TreeErr.invalidArgument, dirStoreEx) ∧
    remove dirStoreEx 5 = (Except.error TreeErr.notFound, dirStoreEx) :=
  ⟨(c6_remove_failures dirStoreEx 0).1 rfl,
   (c6_remove_failures dirStoreEx 5).2 (by decide) rfl⟩

/-- Claim C10: a click on a node whose children list is empty after any
populate attempt — a plain status leaf, a non-directory path, or an empty
directory — leaves the store (and with it the expanded flag) exactly
unchanged; toggle only runs for nodes with at least one child. -/
theorem c10_childless_click_no_toggle {α : Type u} (s : TreeControlStore α) (nid : Nat)
    (node : TreeNode α) (fs : Fsys) (s2 : TreeControlStore String) (nid2 : Nat)
    (node2 : TreeNode String) :
    (lookupNode s.nodes nid = some node → node.childIds = [] → tcHandleClick s nid = s) ∧
    (lookupNode s2.nodes nid2 = some node2 → node2.childIds = [] →
      (fs.isDir node2.data = false ∨ fs.listing node2.data = []) →
      (dtHandleClick fs s2 nid2).1 = s2) := by
  constructor
  · intro h1 h2
    simp [tcHandleClick, h1, h2]
  · intro h1 h2 h3
    rcases h3 with h3 | h3
    · simp [dtHandleClick, h1, h2, h3, tcHandleClick]
    · cases hd : fs.isDir node2.data
      · simp [dtHandleClick, h1, h2, hd, tcHandleClick]
      · simp [dtHandleClick, h1, h2, hd, h3, populateChildren, tcHandleClick]

theorem c10_childless_click_no_toggle_witness :
    tcHandleClick dirStoreEx 1 = dirStoreEx ∧
    (dtHandleClick fsEmptyDir dirStoreEx 1).1 = dirStoreEx := by
  obtain ⟨a, b⟩ := c10_childless_click_no_toggle dirStoreEx 1
    ⟨1, "empty", "/root/empty", some 0, [], false⟩ fsEmptyDir dirStoreEx 1
    ⟨1, "empty", "/root/empty", some 0, [], false⟩
  exact ⟨a rfl rfl, b rfl rfl (Or.inr rfl)⟩

/-- Counterexample to claim C8 as stated: a node for an empty directory is
clicked twice; the populate block (directory listing) runs on both clicks,
so it does not run at most once over the node's lifetime. -/
theorem c8_counterexample :
    (dtHandleClick fsEmptyDir dirStoreEx 1).2 = 1 ∧
    (dtHandleClick fsEmptyDir dirStoreEx 1).1 = dirStoreEx ∧
    (dtHandleClick fsEmptyDir (dtHandleClick fsEmptyDir dirStoreEx 1).1 1).2 = 1 ∧
    (dtHandleClick fsEmptyDir dirStoreEx 1).2 +
      (dtHandleClick fsEmptyDir (dtHandleClick fsEmptyDir dirStoreEx 1).1 1).2 = 2 := by
  exact ⟨rfl, rfl, rfl, rfl⟩

/-- Claim C8, amended: the lazy populate block is invoked exactly when the
clicked node has zero children at that moment — so a node that ever gains
a child is never re-populated (a click on it only toggles), while a node
left childless by populate (non-directory or empty directory, where the
attempt is a no-op) is re-attempted on each later click; for a
non-directory the attempt leaves the store unchanged. -/
theorem c8_populate_amended (fs : Fsys) (s : TreeControlStore String) (nid : Nat)
    (node : TreeNode String) (h : lookupNode s.nodes nid = some node) :
    (node.childIds ≠ [] → dtHandleClick fs s nid = (toggle s nid, 0)) ∧
    (node.childIds = [] → (dtHandleClick fs s nid).2 = 1) ∧
    (node.childIds = [] → fs.isDir node.data = false → (dtHandleClick fs s nid).1 = s) := by
  refine ⟨?_, ?_, ?_⟩
  · intro h2
    simp [dtHandleClick, h, h2, tcHandleClick]
  · intro h2
    simp [dtHandleClick, h, h2]
  · intro h2 h3
    simp [dtHandleClick, h, h2, h3, tcHandleClick]

theorem c8_populate_amended_witness :
    dtHandleClick fsEmptyDir dirStoreEx 0 = (toggle dirStoreEx 0, 0) ∧
    (dtHandleClick fsEmptyDir dirStoreEx 1).2 = 1 :=
  ⟨(c8_populate_amended fsEmptyDir dirStoreEx 0
      ⟨0, "root", "/root", none, [1], true⟩ rfl).1 (by decide),
   (c8_populate_amended fsEmptyDir dirStoreEx 1
      ⟨1, "empty", "/root/empty", some 0, [], false⟩ rfl).2.1 rfl⟩

/-! ## Claim about synthetic redispatch (C9) -/

/-- Counterexample to claim C9 as stated: with every dispatched event
consumed, the code keeps feeding and dispatches both target keys, whereas
the claimed behavior (stop as soon as a dispatched event is consumed)
would dispatch only the first. -/
theorem c9_counterexample :
    appPress ⟨[], [(["Z"], ["a", "b"])]⟩ (fun _ => true) (fun _ => false) "Z" =
      (⟨[], [(["Z"], ["a", "b"])]⟩, ["a", "b"], true) ∧
    dispatchTargetsSpec (fun _ => true) ["a", "b"] = ["a"] ∧
    dispatchTargets (fun _ => true) ["a", "b"] ≠
      dispatchTargetsSpec (fun _ => true) ["a", "b"] := by
  exact ⟨rfl, rfl, by decide⟩

/-- Claim C9, amended: on a resolved chord the controller feeds the target
keys, in order, as synthetic events through the dispatch stage, and stops
feeding the remaining keys as soon as a dispatched event is NOT marked
consumed (that unconsumed event is still dispatched): the dispatched
sequence is the consumed prefix of the target plus the first unconsumed
key, if any. -/
theorem c9_dispatch_amended :
    (∀ (consume : Key → Bool) (ts : List Key),
      dispatchTargets consume ts =
        ts.takeWhile consume ++ (ts.drop (ts.takeWhile consume).length).take 1) ∧
    (∀ (km : KeyMap) (consume superPress : Key → Bool) (key : Key) (target : List Key),
      (kmPress km key).1 = Sum.inr target →
      appPress km consume superPress key =
        ((kmPress km key).2, dispatchTargets consume target, true)) := by
  constructor
  · intro consume ts
    induction ts with
    | nil => rfl
    | cons k rest ih =>
        cases hc : consume k
        · simp [dispatchTargets, List.takeWhile_cons, hc]
        · simp [dispatchTargets, List.takeWhile_cons, hc, ih]
  · intro km consume sp key target h
    cases hk : kmPress km key with
    | mk r km' =>
        rw [hk] at h
        simp only at h
        subst h
        simp [appPress, hk]

theorem c9_dispatch_amended_witness :
    dispatchTargets (fun k => k == "a") ["a", "b", "c"] =
      (["a", "b", "c"].takeWhile (fun k => k == "a")) ++
        ((["a", "b", "c"].drop
          ((["a", "b", "c"].takeWhile (fun k => k == "a")).length)).take 1) ∧
    appPress ⟨["Z"], [(["Z", "Z"], ["a", "b"])]⟩ (fun k => k == "a") (fun _ => false) "Z" =
      ((kmPress ⟨["Z"], [(["Z", "Z"], ["a", "b"])]⟩ "Z").2,
        dispatchTargets (fun k => k == "a") ["a", "b"], true) :=
  ⟨c9_dispatch_amended.1 (fun k => k == "a") ["a", "b", "c"],
   c9_dispatch_amended.2 ⟨["Z"], [(["Z", "Z"], ["a", "b"])]⟩ (fun k => k == "a")
     (fun _ => false) "Z" ["a", "b"] (by decide)⟩

/-! ## Claim about the chord remapper (C1) -/

theorem lookupSeq_none_forall {l : List (List Key × List Key)} {cs : List Key}
    (h : lookupSeq l cs = none) : ∀ p ∈ l, p.1 ≠ cs := by
  induction l with
  | nil => intro p hp; simp at hp
  | cons q rest ih =>
      obtain ⟨src, tgt⟩ := q
      intro p hp
      by_cases hsrc : src = cs
      · simp [lookupSeq, hsrc] at h
      · simp only [lookupSeq, hsrc, if_false] at h
        rcases List.mem_cons.1 hp with rfl | hmem
        · exact hsrc
        · exact ih h p hmem

theorem prefix_concat_cases {β : Type u} {q l : List β} {x : β} (h : q <+: l ++ [x]) :
    q <+: l ∨ q = l ++ [x] := by
  rcases h with ⟨r, hr⟩
  rcases List.eq_nil_or_concat' r with rfl | ⟨r', y, rfl⟩
  · right
    simpa using hr
  · left
    have h2 : (q ++ r') ++ [y] = l ++ [x] := by simpa [List.append_assoc] using hr
    have h3 := List.append_inj' h2 rfl
    exact ⟨r', h3.1⟩

theorem kmPress_mapping (m : KeyMap) (k : Key) : ((kmPress m k).2).mapping = m.mapping := by
  unfold kmPress
  split
  · rfl
  · split <;> rfl

theorem kmPress_pendingOk {M : List (List Key × List Key)} (m : KeyMap) (k : Key)
    (hm : m.mapping = M) (h : PendingOk M m.current_sequence) :
    PendingOk M ((kmPress m k).2).current_sequence := by
  cases heq : lookupSeq m.mapping (m.current_sequence ++ [k]) with
  | some target =>
      simp only [kmPress, heq]
      intro q hq hpre
      rw [List.prefix_nil] at hpre
      exact absurd hpre hq
  | none =>
      by_cases hcan : (m.mapping.any fun p =>
          p.1.take (m.current_sequence ++ [k]).length == m.current_sequence ++ [k]) = true
      · simp only [kmPress, heq, hcan, if_true]
        intro q hq hpre
        rcases prefix_concat_cases hpre with hq' | rfl
        · exact h q hq hq'
        · exact hm ▸ heq
      · simp only [kmPress, heq]
        rw [if_neg hcan]
        intro q hq hpre
        rw [List.prefix_nil] at hpre
        exact absurd hpre hq

theorem kmRun_invariant {M : List (List Key × List Key)} (ks : List Key) (m : KeyMap)
    (hm : m.mapping = M) (h : PendingOk M m.current_sequence) :
    (kmRun m ks).mapping = M ∧ PendingOk M (kmRun m ks).current_sequence := by
  induction ks generalizing m with
  | nil => exact ⟨hm, h⟩
  | cons k ks ih =>
      have hstep : kmRun m (k :: ks) = kmRun ((kmPress m k).2) ks := rfl
      rw [hstep]
      exact ih _ ((kmPress_mapping m k).trans hm) (kmPress_pendingOk m k hm h)

/-- Claim C1: for every mapping and pressed key, press appends the key to
the pending buffer and then: on exact equality with a bound source it
returns that source's target and resets the buffer (exact match is checked
before any prefix test); otherwise, when the extended buffer is a strict
prefix of at least one bound source, the buffer is kept and continuing is
true; otherwise the buffer resets and continuing is false, so the next
press starts fresh.  Moreover, when both a nonempty sequence and a proper
extension of it are bound, the extension is unreachable: starting from an
empty buffer, no press ever evaluates the extension's exact lookup. -/
theorem c1_press_trichotomy :
    (∀ (m : KeyMap) (key : Key) (t : List Key),
      lookupSeq m.mapping (m.current_sequence ++ [key]) = some t →
      kmPress m key = (Sum.inr t, { m with current_sequence := [] })) ∧
    (∀ (m : KeyMap) (key : Key),
      lookupSeq m.mapping (m.current_sequence ++ [key]) = none →
      ((∃ p ∈ m.mapping, (m.current_sequence ++ [key]) <+: p.1 ∧
          m.current_sequence ++ [key] ≠ p.1) →
        kmPress m key =
          (Sum.inl true, { m with current_sequence := m.current_sequence ++ [key] })) ∧
      (¬ (∃ p ∈ m.mapping, (m.current_sequence ++ [key]) <+: p.1 ∧
          m.current_sequence ++ [key] ≠ p.1) →
        kmPress m key = (Sum.inl false, { m with current_sequence := [] }))) ∧
    (∀ (M : List (List Key × List Key)) (s t ks : List Key) (key : Key),
      lookupSeq M s ≠ none → lookupSeq M (s ++ t) ≠ none → s ≠ [] → t ≠ [] →
      (kmRun ⟨[], M⟩ ks).current_sequence ++ [key] ≠ s ++ t) := by
  refine ⟨?_, ?_, ?_⟩
  · intro m key t h
    simp [kmPress, h]
  · intro m key hnone
    have hne := lookupSeq_none_forall hnone
    constructor
    · intro hex
      have hany : (m.mapping.any fun p =>
          p.1.take (m.current_sequence ++ [key]).length ==
            m.current_sequence ++ [key]) = true := by
        rw [List.any_eq_true]
        obtain ⟨p, hp, hpre, _⟩ := hex
        refine ⟨p, hp, ?_⟩
        rw [beq_iff_eq]
        exact (List.prefix_iff_eq_take.1 hpre).symm
      simp only [kmPress, hnone]
      rw [hany]
      simp
    · intro hnex
      have hany : (m.mapping.any fun p =>
          p.1.take (m.current_sequence ++ [key]).length ==
            m.current_sequence ++ [key]) = false := by
        rw [Bool.eq_false_iff]
        intro hb
        rw [List.any_eq_true] at hb
        obtain ⟨p, hp, hf⟩ := hb
        rw [beq_iff_eq] at hf
        exact hnex ⟨p, hp, List.prefix_iff_eq_take.2 hf.symm,
          fun hcs => hne p hp hcs.symm⟩
      simp only [kmPress, hnone]
      rw [hany]
      simp
  · intro M s t ks key hs hst hsne htne heq
    have hinit : PendingOk M ([] : List Key) := by
      intro q hq hpre
      rw [List.prefix_nil] at hpre
      exact absurd hpre hq
    obtain ⟨hmap, hok⟩ := kmRun_invariant ks ⟨[], M⟩ rfl hinit
    have ht1 : 1 ≤ t.length := List.length_pos.2 htne
    have hlen : s.length ≤ (kmRun ⟨[], M⟩ ks).current_sequence.length := by
      have hl := congrArg List.length heq
      simp only [List.length_append, List.length_cons, List.length_nil] at hl
      omega
    have hsp : s <+: (kmRun ⟨[], M⟩ ks).current_sequence ++ [key] := ⟨t, heq.symm⟩
    have hsp2 : s <+: (kmRun ⟨[], M⟩ ks).current_sequence := by
      rw [List.prefix_iff_eq_take] at hsp ⊢
      rwa [List.take_append_of_le_length hlen] at hsp
    exact hs (hok s hsne hsp2)

theorem c1_press_trichotomy_witness :
    kmPress ⟨["Z"], [(["Z", "Z"], ["q"])]⟩ "Z" =
      (Sum.inr ["q"], ⟨[], [(["Z", "Z"], ["q"])]⟩) ∧
    kmPress ⟨[], [(["Z", "Z"], ["q"])]⟩ "Z" =
      (Sum.inl true, ⟨["Z"], [(["Z", "Z"], ["q"])]⟩) ∧
    kmPress ⟨["Z"], [(["Z", "Z"], ["q"])]⟩ "x" =
      (Sum.inl false, ⟨[], [(["Z", "Z"], ["q"])]⟩) ∧
    (kmRun ⟨[], [(["a"], ["x"]), (["a", "b"], ["y"])]⟩ ["a"]).current_sequence ++ ["b"] ≠
      ["a", "b"] := by
  refine ⟨?_, ?_, ?_, ?_⟩
  · exact c1_press_trichotomy.1 ⟨["Z"], [(["Z", "Z"], ["q"])]⟩ "Z" ["q"] (by decide)
  · exact (c1_press_trichotomy.2.1 ⟨[], [(["Z", "Z"], ["q"])]⟩ "Z" (by decide)).1 (by decide)
  · exact (c1_press_trichotomy.2.1 ⟨["Z"], [(["Z", "Z"], ["q"])]⟩ "x" (by decide)).2 (by decide)
  · exact c1_press_trichotomy.2.2 [(["a"], ["x"]), (["a", "b"], ["y"])] ["a"] ["b"] ["a"] "b"
      (by decide) (by decide) (by decide) (by decide)

/-! ## Claim about add/remove round trips (C7) -/

theorem key_le_of_lookupNode {l : List (Nat × TreeNode α)} {n k : Nat} {v : TreeNode α}
    (h : keysLe l n = true) (hk : lookupNode l k = some v) : k ≤ n := by
  induction l with
  | nil => simp [lookupNode] at hk
  | cons p rest ih =>
      obtain ⟨k', v'⟩ := p
      simp only [keysLe, List.all_cons, Bool.and_eq_true] at h
      by_cases hkk : k' = k
      · subst hkk
        exact Nat.le_of_ble_eq_true h.1
      · simp only [lookupNode, hkk, if_false] at hk
        exact ih h.2 hk

theorem childIds_le_of_childrenLe {l : List (Nat × TreeNode α)} {n k : Nat} {v : TreeNode α}
    (h : childrenLe l n = true) (hk : lookupNode l k = some v) :
    ∀ c ∈ v.childIds, c ≤ n := by
  induction l with
  | nil => simp [lookupNode] at hk
  | cons p rest ih =>
      obtain ⟨k', v'⟩ := p
      simp only [childrenLe, List.all_cons, Bool.and_eq_true] at h
      by_cases hkk : k' = k
      · simp only [lookupNode, hkk, if_true, Option.some.injEq] at hk
        subst hk
        intro c hc
        have h1 := h.1
        rw [List.all_eq_true] at h1
        exact Nat.le_of_ble_eq_true (h1 c hc)
      · simp only [lookupNode, hkk, if_false] at hk
        exact ih h.2 hk

theorem lookupNode_append_of_some {l l2 : List (Nat × TreeNode α)} {k : Nat} {v : TreeNode α}
    (h : lookupNode l k = some v) : lookupNode (l ++ l2) k = some v := by
  induction l with
  | nil => simp [lookupNode] at h
  | cons p rest ih =>
      obtain ⟨k', v'⟩ := p
      by_cases hk : k' = k
      · simpa [lookupNode, hk] using h
      · simp only [lookupNode, hk, if_false] at h
        simpa only [List.cons_append, lookupNode, hk, if_false] using ih h

/-- The success path of `remove`, in closed form: with the id present, not
the root, and linked in its parent's children, remove pops the node entry
and erases the first occurrence of the id from the parent's children. -/
theorem remove_success (s : TreeControlStore α) {nid pid : Nat} {node parent : TreeNode α}
    (hroot : nid ≠ s.rootId) (hpid : pid ≠ nid)
    (hn : lookupNode s.nodes nid = some node) (hp : node.parentId = some pid)
    (hpar : lookupNode s.nodes pid = some parent) (hmem : nid ∈ parent.childIds) :
    remove s nid =
      (Except.ok (),
        { s with nodes := (setNode (eraseNode s.nodes nid) pid
            { parent with childIds := parent.childIds.erase nid }) }) := by
  have hpe : lookupNode (eraseNode s.nodes nid) pid = some parent :=
    (lookupNode_eraseNode_ne hpid).trans hpar
  simp [remove, hroot, hn, hp, hpe, hmem]

/-- Claim C7: under store well-formedness, add followed by remove of the
returned id restores the node map — in particular the parent's children
sequence regains exactly its pre-add content and order; and a successful
remove unlinks only the removed id from its parent's ordered children
(the result is the order-preserving erase of the first occurrence, a
sublist of the original), deletes only that entry from the node map, and
leaves every other node — descendants included — untouched. -/
theorem c7_add_remove {α : Type u} :
    (∀ (s : TreeControlStore α) (pid : Nat) (lbl : String) (dat : α) (parent : TreeNode α),
      wfStore s = true → lookupNode s.nodes pid = some parent →
      ∀ (nid : Nat) (s' : TreeControlStore α),
        add s pid lbl dat = (Except.ok nid, s') →
        (remove s' nid).1 = Except.ok () ∧ (remove s' nid).2.nodes = s.nodes) ∧
    (∀ (s : TreeControlStore α) (nid pid : Nat) (node parent : TreeNode α),
      wfStore s = true → nid ≠ s.rootId → pid ≠ nid →
      lookupNode s.nodes nid = some node → node.parentId = some pid →
      lookupNode s.nodes pid = some parent → nid ∈ parent.childIds →
      (remove s nid).1 = Except.ok () ∧
      lookupNode (remove s nid).2.nodes nid = none ∧
      lookupNode (remove s nid).2.nodes pid =
        some ({ parent with childIds := parent.childIds.erase nid }) ∧
      List.Sublist (parent.childIds.erase nid) parent.childIds ∧
      (∀ k : Nat, k ≠ nid → k ≠ pid →
        lookupNode (remove s nid).2.nodes k = lookupNode s.nodes k)) := by
  constructor
  · intro s pid lbl dat parent hwf hparent nid s' hadd
    simp only [wfStore, Bool.and_eq_true] at hwf
    obtain ⟨⟨⟨hroot, hkeys⟩, hchild⟩, hnodup⟩ := hwf
    simp only [add, hparent, Prod.mk.injEq, Except.ok.injEq] at hadd
    obtain ⟨rfl, rfl⟩ := hadd
    have hpidle : pid ≤ s.nextId := key_le_of_lookupNode hkeys hparent
    set P : TreeNode α :=
      ({ parent with childIds := parent.childIds ++ [s.nextId + 1] }) with hP
    set C : TreeNode α :=
      ({ id := s.nextId + 1, label := lbl, data := dat, parentId := some pid,
         childIds := ([] : List Nat), expanded := false }) with hC
    have hsetkeys : keysLe (setNode s.nodes pid P) s.nextId = true := keysLe_setNode hkeys
    have hnoneSet : lookupNode (setNode s.nodes pid P) (s.nextId + 1) = none :=
      lookupNode_eq_none_of_keysLe hsetkeys
    have hlookNew :
        lookupNode (setNode s.nodes pid P ++ [(s.nextId + 1, C)]) (s.nextId + 1) = some C := by
      rw [lookupNode_append_of_none hnoneSet]
      simp [lookupNode]
    have hlookPid :
        lookupNode (setNode s.nodes pid P ++ [(s.nextId + 1, C)]) pid = some P :=
      lookupNode_append_of_some (lookupNode_setNode_self hparent)
    have hpidne : pid ≠ s.nextId + 1 := by omega
    have hrootne : s.nextId + 1 ≠ s.rootId := by
      have := Nat.le_of_ble_eq_true hroot
      omega
    have hnotmem : s.nextId + 1 ∉ parent.childIds := by
      intro hm
      have := childIds_le_of_childrenLe hchild hparent (s.nextId + 1) hm
      omega
    have hmemP : s.nextId + 1 ∈ P.childIds := by
      rw [hP]
      simp
    have hCpar : C.parentId = some pid := rfl
    have hr := remove_success
      ⟨s.rootId, setNode s.nodes pid P ++ [(s.nextId + 1, C)], s.nextId + 1⟩
      hrootne hpidne hlookNew hCpar hlookPid hmemP
    constructor
    · rw [hr]
    · rw [hr]
      show setNode (eraseNode (setNode s.nodes pid P ++ [(s.nextId + 1, C)]) (s.nextId + 1))
          pid ({ P with childIds := P.childIds.erase (s.nextId + 1) }) = s.nodes
      rw [eraseNode_append_of_none hnoneSet, setNode_setNode]
      have hPX : ({ P with childIds := P.childIds.erase (s.nextId + 1) } : TreeNode α)
          = parent := by
        rw [hP]
        show ({ parent with
          childIds := (parent.childIds ++ [s.nextId + 1]).erase (s.nextId + 1) } :
            TreeNode α) = parent
        rw [erase_append_single hnotmem]
      rw [hPX]
      exact setNode_eq_self hparent
  · intro s nid pid node parent hwf hroot hpid hn hp hpar hmem
    simp only [wfStore, Bool.and_eq_true] at hwf
    obtain ⟨⟨⟨hble, hkeys⟩, hchild⟩, hnodup⟩ := hwf
    have hr := remove_success s hroot hpid hn hp hpar hmem
    refine ⟨by rw [hr], ?_, ?_, List.erase_sublist _ _, ?_⟩
    · simp only [hr]
      rw [lookupNode_setNode_ne (Ne.symm hpid)]
      exact lookupNode_eraseNode_self hnodup
    · simp only [hr]
      exact lookupNode_setNode_self ((lookupNode_eraseNode_ne hpid).trans hpar)
    · intro k hk1 hk2
      simp only [hr]
      rw [lookupNode_setNode_ne hk2, lookupNode_eraseNode_ne hk1]

theorem c7_add_remove_witness :
    (remove (add dirStoreEx 0 "new" "/root/new").2 2).1 = Except.ok () ∧
    (remove (add dirStoreEx 0 "new" "/root/new").2 2).2.nodes = dirStoreEx.nodes ∧
    (remove dirStoreEx 1).1 = Except.ok () ∧
    lookupNode (remove dirStoreEx 1).2.nodes 1 = none := by
  obtain ⟨a, b⟩ := c7_add_remove.1 dirStoreEx 0 "new" "/root/new"
    ⟨0, "root", "/root", none, [1], true⟩ (by decide) rfl 2
    (add dirStoreEx 0 "new" "/root/new").2 rfl
  obtain ⟨c, d, _, _, _⟩ := c7_add_remove.2 dirStoreEx 1 0
    ⟨1, "empty", "/root/empty", some 0, [], false⟩
    ⟨0, "root", "/root", none, [1], true⟩ (by decide) (by decide) (by decide) rfl rfl rfl
    (by decide)
  exact ⟨a, b, c, d⟩
